import Mathlib

/-!
Verification of the hal-common hardware-definition layer: data-definition
records ButtonDef and EncoderDef (src/oc/common), the ID types re-exported
by oc/common/Types.hpp, and the runtime components the specification defines
over them (Debounce Engine, Quadrature Decoder, Input Event Bus).
Machine integers are modelled as Fin of the corresponding width; no
arithmetic is performed on stored fields, so no overflow arises.
-/

namespace oc.hal

/-- Modelled from the spec: the header oc/hal/Types.hpp is not in the
repository (only its re-export in oc/common/Types.hpp is). Per the spec,
ButtonID is an opaque 16-bit unsigned identifier. -/
abbrev ButtonID := Fin 65536

/-- Modelled from the spec: EncoderID, an opaque 16-bit unsigned
identifier, defined in the missing header oc/hal/Types.hpp. -/
abbrev EncoderID := Fin 65536

/-- Modelled from the spec: the pin source / mux bank of a GpioPin, used in
the ButtonDef.hpp doc comment as Source::MUX and Source::GPIO. -/
inductive Source where
  | MUX : Source
  | GPIO : Source
  deriving Repr, DecidableEq

/-- Modelled from the spec: GpioPin, a physical pin descriptor consisting
of a pin number plus a source/mux bank, immutable once defined. The type
lives in the missing header oc/hal/Types.hpp. -/
structure GpioPin where
  pinNumber : Fin 256
  source : Source
  deriving Repr, DecidableEq

/-- Modelled from the spec: the value-initialized GpioPin produced by the
member initializer pin{} of the ButtonDef default constructor (all zero
bits: pin number 0, first enumerator of Source). -/
def GpioPin.zeroInit : GpioPin := ⟨0, Source.MUX⟩

end oc.hal

namespace oc.common

/-- Re-export of oc::hal::ButtonID by oc/common/Types.hpp line 8. -/
abbrev ButtonID := oc.hal.ButtonID

/-- Re-export of oc::hal::EncoderID by oc/common/Types.hpp line 9. -/
abbrev EncoderID := oc.hal.EncoderID

/-- An enum class value with underlying type uint16_t. For the templated
constructors below, only its numeric underlying value is observable, so the
embedding identifies an enum value with that 16-bit value. -/
structure Enum16 where
  val : Fin 65536
  deriving Repr, DecidableEq

/-- The conversion static_cast from an enum with uint16_t underlying type
to ButtonID: it yields the numeric underlying value (ButtonDef.hpp line 85). -/
def castToButtonID (e : Enum16) : ButtonID := e.val

/-- The conversion static_cast from an enum with uint16_t underlying type
to EncoderID (EncoderDef.hpp line 103). -/
def castToEncoderID (e : Enum16) : EncoderID := e.val

/-- ButtonDef, src/oc/common/ButtonDef.hpp lines 50-54: logical button id,
physical GPIO pin, and the active-low flag. -/
structure ButtonDef where
  id : ButtonID
  pin : oc.hal.GpioPin
  activeLow : Bool
  deriving Repr, DecidableEq

/-- The ButtonDef default constructor (ButtonDef.hpp line 56): member
initializers give id{} = 0, pin{} value-initialized, activeLow = true. -/
def ButtonDef.mkDefault : ButtonDef := ⟨0, oc.hal.GpioPin.zeroInit, true⟩

/-- The constructor ButtonDef(ButtonID, GpioPin, bool) at ButtonDef.hpp
lines 64-65: stores the three arguments verbatim. -/
def ButtonDef.mk3 (buttonId : ButtonID) (gpioPin : oc.hal.GpioPin)
    (active : Bool) : ButtonDef :=
  ⟨buttonId, gpioPin, active⟩

/-- A call of the plain constructor with the defaulted argument omitted:
the default active = true at ButtonDef.hpp line 64 is substituted. -/
def ButtonDef.mk2 (buttonId : ButtonID) (gpioPin : oc.hal.GpioPin) :
    ButtonDef :=
  ButtonDef.mk3 buttonId gpioPin true

/-- The templated constructor ButtonDef(EnumT, GpioPin, bool) at
ButtonDef.hpp lines 81-85: casts the enum value to ButtonID and stores the
arguments verbatim. -/
def ButtonDef.mkEnum (enumId : Enum16) (gpioPin : oc.hal.GpioPin)
    (active : Bool) : ButtonDef :=
  ⟨castToButtonID enumId, gpioPin, active⟩

/-- A call of the templated constructor with the defaulted argument
omitted: the default active = true at ButtonDef.hpp line 84 is
substituted. -/
def ButtonDef.mkEnum2 (enumId : Enum16) (gpioPin : oc.hal.GpioPin) :
    ButtonDef :=
  ButtonDef.mkEnum enumId gpioPin true

/-- EncoderDef, src/oc/common/EncoderDef.hpp lines 51-58: logical encoder
id, the two channel pins, and the configuration parameters. -/
structure EncoderDef where
  id : EncoderID
  pinA : Fin 256
  pinB : Fin 256
  ppr : Fin 65536
  rangeAngle : Fin 65536
  ticksPerEvent : Fin 256
  invertDirection : Bool
  deriving Repr, DecidableEq

/-- The EncoderDef default constructor (EncoderDef.hpp line 61): member
initializers give id{} = 0, pinA{} = 0, pinB{} = 0, ppr = 24,
rangeAngle = 270, ticksPerEvent = 4, invertDirection = false. -/
def EncoderDef.mkDefault : EncoderDef := ⟨0, 0, 0, 24, 270, 4, false⟩

/-- The constructor EncoderDef(EncoderID, uint8, uint8, uint16, uint16,
uint8, bool) at EncoderDef.hpp lines 73-77: stores all seven arguments
verbatim, with no validation. -/
def EncoderDef.mk7 (encoderId : EncoderID) (pA pB : Fin 256)
    (pulses range : Fin 65536) (ticks : Fin 256) (invert : Bool) :
    EncoderDef :=
  ⟨encoderId, pA, pB, pulses, range, ticks, invert⟩

/-- A call of the plain constructor with the four configuration arguments
omitted: the defaults pulses = 24, range = 270, ticks = 4, invert = false
at EncoderDef.hpp lines 74-75 are substituted. -/
def EncoderDef.mk3 (encoderId : EncoderID) (pA pB : Fin 256) : EncoderDef :=
  EncoderDef.mk7 encoderId pA pB 24 270 4 false

/-- The templated constructor EncoderDef(EnumT, ...) at EncoderDef.hpp
lines 97-104: casts the enum value to EncoderID and stores the arguments
verbatim. -/
def EncoderDef.mkEnum (enumId : Enum16) (pA pB : Fin 256)
    (pulses range : Fin 65536) (ticks : Fin 256) (invert : Bool) :
    EncoderDef :=
  ⟨castToEncoderID enumId, pA, pB, pulses, range, ticks, invert⟩

/-- A call of the templated constructor with the four configuration
arguments omitted: the defaults at EncoderDef.hpp lines 101-102 are
substituted. -/
def EncoderDef.mkEnum3 (enumId : Enum16) (pA pB : Fin 256) : EncoderDef :=
  EncoderDef.mkEnum enumId pA pB 24 270 4 false

/-- The record invariants the spec states for EncoderDef: ppr positive,
ticksPerEvent positive, and distinct channel pins. -/
def EncoderDef.invariantsOk (d : EncoderDef) : Prop :=
  0 < d.ppr.val ∧ 0 < d.ticksPerEvent.val ∧ d.pinA ≠ d.pinB

end oc.common

open oc.common oc.hal

/-- Claim C1 fails on the code: the default constructor of EncoderDef is an
accepted argument tuple, yet the record it produces has pinA = pinB = 0,
violating the invariant pinA distinct from pinB. No constructor validates
its arguments. -/
theorem encoderDef_invariants_counterexample :
    ¬ EncoderDef.invariantsOk EncoderDef.mkDefault :=
  fun h => h.2.2 rfl

/-- Claim C1 (amended): a record built by an EncoderDef constructor
satisfies the invariants ppr positive, ticksPerEvent positive and pinA
distinct from pinB exactly when the supplied arguments do; the constructors
store arguments verbatim and enforce nothing. In particular the default
configuration arguments give ppr = 24 and ticksPerEvent = 4, both positive,
but the default constructor yields pinA = pinB = 0. -/
theorem encoderDef_invariants_amended (encoderId : oc.common.EncoderID)
    (pA pB : Fin 256) (pulses range : Fin 65536) (ticks : Fin 256)
    (invert : Bool) (h1 : 0 < pulses.val) (h2 : 0 < ticks.val)
    (h3 : pA ≠ pB) :
    EncoderDef.invariantsOk
      (EncoderDef.mk7 encoderId pA pB pulses range ticks invert) :=
  ⟨h1, h2, h3⟩

/-- Witness for the amended C1 at a concrete argument tuple. -/
theorem encoderDef_invariants_amended_witness :
    EncoderDef.invariantsOk (EncoderDef.mk7 100 22 23 24 270 4 false) :=
  encoderDef_invariants_amended 100 22 23 24 270 4 false
    (by decide) (by decide) (by decide)

/-- Claim C2: an EncoderDef constructed with the configuration parameters
omitted has ppr = 24, rangeAngle = 270, ticksPerEvent = 4 and
invertDirection = false, for every choice of id (plain or enum) and pins;
the default-constructed record likewise. -/
theorem encoderDef_defaults :
    (∀ (i : oc.common.EncoderID) (pA pB : Fin 256),
        (EncoderDef.mk3 i pA pB).ppr = 24
        ∧ (EncoderDef.mk3 i pA pB).rangeAngle = 270
        ∧ (EncoderDef.mk3 i pA pB).ticksPerEvent = 4
        ∧ (EncoderDef.mk3 i pA pB).invertDirection = false)
    ∧ (∀ (e : Enum16) (pA pB : Fin 256),
        (EncoderDef.mkEnum3 e pA pB).ppr = 24
        ∧ (EncoderDef.mkEnum3 e pA pB).rangeAngle = 270
        ∧ (EncoderDef.mkEnum3 e pA pB).ticksPerEvent = 4
        ∧ (EncoderDef.mkEnum3 e pA pB).invertDirection = false)
    ∧ EncoderDef.mkDefault.ppr = 24
    ∧ EncoderDef.mkDefault.rangeAngle = 270
    ∧ EncoderDef.mkDefault.ticksPerEvent = 4
    ∧ EncoderDef.mkDefault.invertDirection = false :=
  ⟨fun _ _ _ => ⟨rfl, rfl, rfl, rfl⟩,
   fun _ _ _ => ⟨rfl, rfl, rfl, rfl⟩,
   rfl, rfl, rfl, rfl⟩

/-- Claim C3: constructing a ButtonDef from an id, a pin and an active flag
yields a record whose fields id, pin and activeLow are exactly those three
arguments, and every ButtonDef is exactly the record of those three fields
(the type has no further state, and the repository defines no operation
that alters one). -/
theorem buttonDef_fields_exact :
    (∀ (i : oc.common.ButtonID) (p : oc.hal.GpioPin) (a : Bool),
        (ButtonDef.mk3 i p a).id = i
        ∧ (ButtonDef.mk3 i p a).pin = p
        ∧ (ButtonDef.mk3 i p a).activeLow = a)
    ∧ (∀ d : ButtonDef, d = ButtonDef.mk3 d.id d.pin d.activeLow) :=
  ⟨fun _ _ _ => ⟨rfl, rfl, rfl⟩, fun _ => rfl⟩

/-- Claim C4: the templated enum constructors reduce to the plain
constructors applied to the numeric value of the enum cast to the ID type,
with the remaining arguments unchanged, for both ButtonDef and
EncoderDef. -/
theorem enum_ctor_refines_plain_ctor :
    (∀ (e : Enum16) (p : oc.hal.GpioPin) (a : Bool),
        ButtonDef.mkEnum e p a = ButtonDef.mk3 (castToButtonID e) p a)
    ∧ (∀ (e : Enum16) (pA pB : Fin 256) (pulses range : Fin 65536)
        (ticks : Fin 256) (invert : Bool),
        EncoderDef.mkEnum e pA pB pulses range ticks invert
          = EncoderDef.mk7 (castToEncoderID e) pA pB pulses range ticks
              invert) :=
  ⟨fun _ _ _ => rfl, fun _ _ _ _ _ _ _ => rfl⟩

/-- Claim C5: ButtonID and EncoderID are 16-bit unsigned identifiers: the
types exported by oc::common are the very types of oc::hal, every id field
of a ButtonDef or EncoderDef is at most 65535, and every value in 0..65535
occurs as the id of some constructible record. -/
theorem id_types_sixteen_bit :
    (oc.common.ButtonID = oc.hal.ButtonID)
    ∧ (oc.common.EncoderID = oc.hal.EncoderID)
    ∧ (∀ d : ButtonDef, d.id.val ≤ 65535)
    ∧ (∀ d : EncoderDef, d.id.val ≤ 65535)
    ∧ (∀ n : Nat, n ≤ 65535 →
        ∃ d : ButtonDef, d.id.val = n)
    ∧ (∀ n : Nat, n ≤ 65535 →
        ∃ d : EncoderDef, d.id.val = n) :=
  ⟨rfl, rfl,
   fun d => by have := d.id.isLt; omega,
   fun d => by have := d.id.isLt; omega,
   fun n hn =>
     ⟨ButtonDef.mk3 ⟨n, by omega⟩ oc.hal.GpioPin.zeroInit true, rfl⟩,
   fun n hn => ⟨EncoderDef.mk3 ⟨n, by omega⟩ 0 1, rfl⟩⟩

/-- Witness for C5 at concrete inputs: a ButtonDef and an EncoderDef whose
id is 7 exist. -/
theorem id_types_sixteen_bit_witness :
    (∃ d : ButtonDef, d.id.val = 7) ∧ ∃ d : EncoderDef, d.id.val = 7 :=
  ⟨id_types_sixteen_bit.2.2.2.2.1 7 (by decide),
   id_types_sixteen_bit.2.2.2.2.2 7 (by decide)⟩

/-- Claim C9: ButtonDef defaults to active-low. The default-constructed
record, and records built from only an id and a pin through the plain or
the enum constructor, all have activeLow = true. -/
theorem buttonDef_default_activeLow :
    ButtonDef.mkDefault.activeLow = true
    ∧ (∀ (i : oc.common.ButtonID) (p : oc.hal.GpioPin),
        (ButtonDef.mk2 i p).activeLow = true)
    ∧ (∀ (e : Enum16) (p : oc.hal.GpioPin),
        (ButtonDef.mkEnum2 e p).activeLow = true) :=
  ⟨rfl, fun _ _ => rfl, fun _ _ => rfl⟩

/-- Claim C10: EncoderDef construction is total and validates nothing:
every argument tuple is stored verbatim field by field, including
ppr = 0, ticksPerEvent = 0 and equal pins, and the default constructor
yields pinA = pinB = 0. -/
theorem encoderDef_ctor_total_verbatim :
    (∀ (i : oc.common.EncoderID) (pA pB : Fin 256) (pulses range : Fin 65536)
        (ticks : Fin 256) (invert : Bool),
        EncoderDef.mk7 i pA pB pulses range ticks invert
          = ⟨i, pA, pB, pulses, range, ticks, invert⟩)
    ∧ (EncoderDef.mk7 1 5 5 0 270 0 false).ppr.val = 0
    ∧ (EncoderDef.mk7 1 5 5 0 270 0 false).ticksPerEvent.val = 0
    ∧ (EncoderDef.mk7 1 5 5 0 270 0 false).pinA
        = (EncoderDef.mk7 1 5 5 0 270 0 false).pinB
    ∧ EncoderDef.mkDefault.pinA = EncoderDef.mkDefault.pinB :=
  ⟨fun _ _ _ _ _ _ _ => rfl, rfl, rfl, rfl, rfl⟩

/-- Modelled from the spec: the direction of encoder rotation kept in
EncoderState and reported in EncoderTurned events. -/
inductive Direction where
  | CW : Direction
  | CCW : Direction
  | NONE : Direction
  deriving Repr, DecidableEq

/-- Modelled from the spec: InputEvent, the tagged variant over
ButtonPressed, ButtonReleased and EncoderTurned produced by the Debounce
Engine and the Quadrature Decoder and consumed through the Event Bus. -/
inductive InputEvent where
  | buttonPressed (id : oc.hal.ButtonID) : InputEvent
  | buttonReleased (id : oc.hal.ButtonID) : InputEvent
  | encoderTurned (id : oc.hal.EncoderID) (direction : Direction)
      (steps : Int) : InputEvent
  deriving Repr, DecidableEq

/-- Modelled from the spec: raw GPIO levels are booleans with HIGH = true
and LOW = false; the pressed level derived from activeLow is LOW when
activeLow is true and HIGH otherwise. -/
def pressedLevel (activeLow : Bool) : Bool := !activeLow

/-- Modelled from the spec: per-button runtime state of the Debounce
Engine. The borrowed ButtonDef is passed to the sample function directly;
timestamps are naturals. -/
structure ButtonState where
  stableLevel : Bool
  candidateLevel : Bool
  candidateSince : Nat
  deriving Repr, DecidableEq

/-- Modelled from the spec: one Debounce Engine sample call for the button
described by d, a two-sample confirmation filter. If the raw level differs
from the candidate level, the candidate is reset to the raw level at the
current time with no event. Otherwise, if the candidate has been held for
at least the debounce window and differs from the stable level, it is
committed and a ButtonPressed or ButtonReleased event is emitted according
to whether the new stable level equals the pressed level derived from
activeLow. Otherwise nothing changes. -/
def debounceSample (window : Nat) (d : ButtonDef) (st : ButtonState)
    (rawLevel : Bool) (now : Nat) : ButtonState × Option InputEvent :=
  if rawLevel ≠ st.candidateLevel then
    (⟨st.stableLevel, rawLevel, now⟩, none)
  else if window ≤ now - st.candidateSince
      ∧ st.candidateLevel ≠ st.stableLevel then
    (⟨st.candidateLevel, st.candidateLevel, st.candidateSince⟩,
      some (if st.candidateLevel = pressedLevel d.activeLow then
          InputEvent.buttonPressed d.id
        else InputEvent.buttonReleased d.id))
  else (st, none)

/-- Modelled from the spec: a run of successive Debounce Engine sample
calls for one button over a list of raw level and timestamp pairs,
collecting the emitted events in order. -/
def debounceRun (window : Nat) (d : ButtonDef) (st : ButtonState) :
    List (Bool × Nat) → ButtonState × List InputEvent
  | [] => (st, [])
  | p :: rest =>
    let step := debounceSample window d st p.1 p.2
    let next := debounceRun window d step.1 rest
    (next.1, step.2.toList ++ next.2)

/-- Splitting a debounce run at an append boundary. -/
lemma debounceRun_append (window : Nat) (d : ButtonDef) (st : ButtonState)
    (xs ys : List (Bool × Nat)) :
    debounceRun window d st (xs ++ ys) =
      ((debounceRun window d (debounceRun window d st xs).1 ys).1,
        (debounceRun window d st xs).2
          ++ (debounceRun window d (debounceRun window d st xs).1 ys).2) := by
  induction xs generalizing st with
  | nil => simp [debounceRun]
  | cons p xs ih => simp [debounceRun, ih]

/-- A button whose candidate equals its stable level absorbs samples at
that same level without any state change or event. -/
lemma debounceRun_stable (window : Nat) (d : ButtonDef) (l : Bool) (c : Nat)
    (ts : List Nat) :
    debounceRun window d ⟨l, l, c⟩ (ts.map fun u => (l, u)) =
      (⟨l, l, c⟩, []) := by
  induction ts with
  | nil => rfl
  | cons t ts ih => simp [debounceRun, debounceSample, ih]

/-- A sample at the candidate level is a no-op when the commit condition
fails. -/
lemma debounceSample_noop (window : Nat) (d : ButtonDef) (s l : Bool)
    (c t : Nat) (h : ¬ (window ≤ t - c ∧ l ≠ s)) :
    debounceSample window d ⟨s, l, c⟩ l t = (⟨s, l, c⟩, none) := by
  unfold debounceSample
  dsimp only
  rw [if_neg (by simp), if_neg h]

/-- While every sample time stays within the debounce window of the
candidate timestamp, a latched candidate level differing from the stable
level produces no event and no state change. -/
lemma debounceRun_short (window : Nat) (d : ButtonDef) (s l : Bool)
    (c : Nat) (ts : List Nat)
    (h : ∀ u ∈ ts, u - c < window) :
    debounceRun window d ⟨s, l, c⟩ (ts.map fun u => (l, u)) =
      (⟨s, l, c⟩, []) := by
  induction ts with
  | nil => rfl
  | cons t ts ih =>
    have ht : t - c < window := h t (by simp)
    have hstep : debounceSample window d ⟨s, l, c⟩ l t = (⟨s, l, c⟩, none) :=
      debounceSample_noop window d s l c t (fun hc => absurd hc.1 (by omega))
    have hts : ∀ u ∈ ts, u - c < window :=
      fun u hu => h u (List.mem_cons_of_mem t hu)
    simp [debounceRun, hstep, ih hts]

/-- A sample at a raw level different from the candidate latches the new
candidate at the current time and emits nothing. -/
lemma debounceSample_latch (window : Nat) (d : ButtonDef)
    (st : ButtonState) (raw : Bool) (t : Nat)
    (h : raw ≠ st.candidateLevel) :
    debounceSample window d st raw t = (⟨st.stableLevel, raw, t⟩, none) := by
  unfold debounceSample
  rw [if_pos h]

/-- A sample at the candidate level, held at least the debounce window and
differing from the stable level, commits and emits the event selected by
the pressed level. -/
lemma debounceSample_commit (window : Nat) (d : ButtonDef) (s l : Bool)
    (c t : Nat) (hls : l ≠ s) (h : window ≤ t - c) :
    debounceSample window d ⟨s, l, c⟩ l t =
      (⟨l, l, c⟩,
        some (if l = pressedLevel d.activeLow then
            InputEvent.buttonPressed d.id
          else InputEvent.buttonReleased d.id)) := by
  unfold debounceSample
  rw [if_neg (by simp), if_pos ⟨h, hls⟩]

/-- Claim C6: debounce correctness for one button. Starting from a clean
state at stable level s, a raw excursion to level l that never satisfies
the debounce window and then returns to s emits zero events; if instead
some sample holds l for at least the window, the transition commits and
exactly one event is emitted for it, further held samples adding nothing.
The emitted event is ButtonPressed exactly when the new stable level equals
the pressed level derived from activeLow (LOW when activeLow is true, HIGH
otherwise). -/
theorem debounce_stable_transition (window : Nat) (d : ButtonDef)
    (s l : Bool) (c0 t0 t : Nat) (ts1 ts2 : List Nat) (hls : l ≠ s)
    (hshort : ∀ u ∈ ts1, u - t0 < window) :
    (debounceRun window d ⟨s, s, c0⟩
        ((l, t0) :: ((ts1.map fun u => (l, u)) ++ [(s, t)]))
      = (⟨s, s, t⟩, []))
    ∧ (window ≤ t - t0 →
        debounceRun window d ⟨s, s, c0⟩
            ((l, t0)
              :: ((ts1.map fun u => (l, u))
                ++ (l, t) :: (ts2.map fun u => (l, u))))
          = (⟨l, l, t0⟩,
              [if l = pressedLevel d.activeLow then
                  InputEvent.buttonPressed d.id
                else InputEvent.buttonReleased d.id])) := by
  have hlatch : debounceSample window d ⟨s, s, c0⟩ l t0 =
      (⟨s, l, t0⟩, none) :=
    debounceSample_latch window d ⟨s, s, c0⟩ l t0 hls
  constructor
  · have hback : debounceSample window d ⟨s, l, t0⟩ s t =
        (⟨s, s, t⟩, none) :=
      debounceSample_latch window d ⟨s, l, t0⟩ s t (Ne.symm hls)
    simp [debounceRun, hlatch, debounceRun_append,
      debounceRun_short window d s l t0 ts1 hshort, hback]
  · intro hwin
    have hcommit := debounceSample_commit window d s l t0 t hls hwin
    simp [debounceRun, hlatch, debounceRun_append,
      debounceRun_short window d s l t0 ts1 hshort, hcommit,
      debounceRun_stable]

/-- Witness for C6 at the concrete scenario of the spec: an active-low
button with id 10 on pin 9, window 3, raw sequence going LOW at time 10
and held through times 11, 12, 13 commits at time 13 and emits exactly one
ButtonPressed event. -/
theorem debounce_stable_transition_witness :
    debounceRun 3 (ButtonDef.mk3 10 ⟨9, oc.hal.Source.MUX⟩ true)
        ⟨true, true, 0⟩
        ((false, 10)
          :: (([11, 12].map fun u => ((false : Bool), u))
            ++ (false, 13) :: ([].map fun u => ((false : Bool), u))))
      = (⟨false, false, 10⟩, [InputEvent.buttonPressed 10]) := by
  have h := (debounce_stable_transition 3
      (ButtonDef.mk3 10 ⟨9, oc.hal.Source.MUX⟩ true) true false 0 10 13
      [11, 12] [] (by decide) (by decide)).2 (by decide)
  simpa using h

/-- Modelled from the spec: the quadrature phase of the two channel
levels, in the Gray-code cycle 00, 01, 11, 10 (phases 0 to 3). Consecutive
phases differ in exactly one bit; clockwise rotation advances the phase by
one. -/
def quadPhase (a b : Bool) : Nat :=
  match a, b with
  | false, false => 0
  | false, true => 1
  | true, true => 2
  | true, false => 3

/-- Modelled from the spec: the classic 2-bit quadrature transition table
over the last channel pair and the new channel pair. A single-step phase
advance counts +1 (CW), a single-step phase retreat counts -1 (CCW); the
no-change transition and the invalid double-bit transition count 0. -/
def quadDelta (lastA lastB a b : Bool) : Int :=
  let diff := (quadPhase a b + 4 - quadPhase lastA lastB) % 4
  if diff = 1 then 1 else if diff = 3 then -1 else 0

/-- Modelled from the spec: per-encoder runtime state of the Quadrature
Decoder: last channel levels, accumulated ticks, and the rotation
direction of the last counted tick. -/
structure EncoderState where
  lastA : Bool
  lastB : Bool
  accumulatedTicks : Int
  direction : Direction
  deriving Repr, DecidableEq

/-- Modelled from the spec: one Quadrature Decoder sample call for the
encoder described by d. The tick delta from the transition table, negated
when invertDirection is set, is added to accumulatedTicks; invalid and
no-change transitions are ignored and leave the counter untouched. When
the accumulated magnitude reaches ticksPerEvent, an EncoderTurned event is
emitted with steps equal to accumulatedTicks divided by ticksPerEvent (C
integer division truncates toward zero, Int.tdiv) and the consumed ticks
are subtracted, preserving the remainder. -/
def quadSample (d : EncoderDef) (st : EncoderState) (levelA levelB : Bool) :
    EncoderState × Option InputEvent :=
  let delta0 := quadDelta st.lastA st.lastB levelA levelB
  let delta := if d.invertDirection then -delta0 else delta0
  if delta = 0 then
    (⟨levelA, levelB, st.accumulatedTicks, st.direction⟩, none)
  else
    let dir := if 0 < delta then Direction.CW else Direction.CCW
    let acc := st.accumulatedTicks + delta
    if d.ticksPerEvent.val ≤ acc.natAbs then
      let steps := Int.tdiv acc d.ticksPerEvent.val
      (⟨levelA, levelB, acc - steps * d.ticksPerEvent.val, dir⟩,
        some (InputEvent.encoderTurned d.id dir steps))
    else
      (⟨levelA, levelB, acc, dir⟩, none)

/-- Modelled from the spec: a run of successive Quadrature Decoder sample
calls for one encoder over a list of channel level pairs, collecting the
emitted events in order. -/
def quadRun (d : EncoderDef) (st : EncoderState) :
    List (Bool × Bool) → EncoderState × List InputEvent
  | [] => (st, [])
  | p :: rest =>
    let step := quadSample d st p.1 p.2
    let next := quadRun d step.1 rest
    (next.1, step.2.toList ++ next.2)

/-- Modelled from the spec: the channel pair one Gray-code step clockwise
of the given pair: the phase advances by one in the cycle 00, 01, 11,
10. -/
def cwSucc : Bool × Bool → Bool × Bool
  | (false, false) => (false, true)
  | (false, true) => (true, true)
  | (true, true) => (true, false)
  | (true, false) => (false, false)

/-- Modelled from the spec: the channel pair one Gray-code step
counter-clockwise of the given pair: the phase retreats by one in the
cycle 00, 01, 11, 10. -/
def ccwSucc : Bool × Bool → Bool × Bool
  | (false, false) => (true, false)
  | (true, false) => (true, true)
  | (true, true) => (false, true)
  | (false, true) => (false, false)

/-- The channel pairs seen over n successive Gray-code steps generated by
the step function f, following the pair ab. -/
def seqOf (f : Bool × Bool → Bool × Bool) (ab : Bool × Bool) :
    Nat → List (Bool × Bool)
  | 0 => []
  | n + 1 => f ab :: seqOf f (f ab) n

/-- The channel pairs seen over n successive clockwise Gray-code steps
following the pair ab. -/
def cwSeq (ab : Bool × Bool) (n : Nat) : List (Bool × Bool) :=
  seqOf cwSucc ab n

/-- The channel pairs seen over n successive counter-clockwise Gray-code
steps following the pair ab. -/
def ccwSeq (ab : Bool × Bool) (n : Nat) : List (Bool × Bool) :=
  seqOf ccwSucc ab n

/-- One clockwise Gray-code step always scores +1 in the transition
table. -/
lemma quadDelta_cwSucc (ab : Bool × Bool) :
    quadDelta ab.1 ab.2 (cwSucc ab).1 (cwSucc ab).2 = 1 := by
  obtain ⟨a, b⟩ := ab
  cases a <;> cases b <;> decide

/-- One counter-clockwise Gray-code step always scores -1 in the
transition table. -/
lemma quadDelta_ccwSucc (ab : Bool × Bool) :
    quadDelta ab.1 ab.2 (ccwSucc ab).1 (ccwSucc ab).2 = -1 := by
  obtain ⟨a, b⟩ := ab
  cases a <;> cases b <;> decide

/-- A sampled transition whose effective tick, after the invertDirection
sign flip, is +1 adds one tick: when the count reaches ticksPerEvent it
emits a one-step CW event and resets, otherwise it just increments. -/
lemma quadSample_pos (d : EncoderDef) (la lb a b : Bool)
    (heff : (if d.invertDirection then -quadDelta la lb a b
        else quadDelta la lb a b) = 1)
    (k : Nat) (dir : Direction) (hk : k < d.ticksPerEvent.val) :
    quadSample d ⟨la, lb, (k : Int), dir⟩ a b
      = if k + 1 = d.ticksPerEvent.val then
          (⟨a, b, 0, Direction.CW⟩,
            some (InputEvent.encoderTurned d.id Direction.CW 1))
        else
          (⟨a, b, ((k : Int) + 1), Direction.CW⟩, none) := by
  have hcast : ((k : Int) + 1) = ((k + 1 : Nat) : Int) := by push_cast; ring
  simp only [quadSample]
  rw [heff]
  norm_num
  simp only [hcast, Int.natAbs_ofNat]
  by_cases hkt : k + 1 = d.ticksPerEvent.val
  · have hT : 0 < d.ticksPerEvent.val := by omega
    have hdiv : Int.tdiv ((k : Int) + 1) ((d.ticksPerEvent.val : Nat) : Int)
        = 1 := by
      rw [hcast, ← Int.ofNat_tdiv, hkt, Nat.div_self hT, Nat.cast_one]
    rw [if_pos (by omega), if_pos hkt]
    simp [hdiv, EncoderState.mk.injEq]
    omega
  · rw [if_neg (by omega), if_neg hkt]

/-- A sampled transition whose effective tick, after the invertDirection
sign flip, is -1 subtracts one tick: when the magnitude reaches
ticksPerEvent it emits a minus-one-step CCW event and resets, otherwise it
just decrements. -/
lemma quadSample_neg (d : EncoderDef) (la lb a b : Bool)
    (heff : (if d.invertDirection then -quadDelta la lb a b
        else quadDelta la lb a b) = -1)
    (k : Nat) (dir : Direction) (hk : k < d.ticksPerEvent.val) :
    quadSample d ⟨la, lb, -(k : Int), dir⟩ a b
      = if k + 1 = d.ticksPerEvent.val then
          (⟨a, b, 0, Direction.CCW⟩,
            some (InputEvent.encoderTurned d.id Direction.CCW (-1)))
        else
          (⟨a, b, -((k + 1 : Nat) : Int), Direction.CCW⟩, none) := by
  simp only [quadSample]
  rw [heff]
  rw [if_neg (by norm_num : ¬(-1 : Int) = 0)]
  rw [if_neg (by norm_num : ¬(0 : Int) < -1)]
  have hacc : (-(k : Int) + -1) = -((k + 1 : Nat) : Int) := by
    push_cast; ring
  rw [hacc]
  rw [Int.natAbs_neg, Int.natAbs_ofNat]
  by_cases hkt : k + 1 = d.ticksPerEvent.val
  · have hT : 0 < d.ticksPerEvent.val := by omega
    have hdiv : Int.tdiv (-((k + 1 : Nat) : Int))
        ((d.ticksPerEvent.val : Nat) : Int) = -1 := by
      rw [Int.neg_tdiv, ← Int.ofNat_tdiv, hkt, Nat.div_self hT,
        Nat.cast_one]
    rw [if_pos (by omega), if_pos hkt, hdiv]
    have hzero : (-((k + 1 : Nat) : Int))
        - (-1) * ((d.ticksPerEvent.val : Nat) : Int) = 0 := by
      push_cast
      omega
    rw [hzero]
  · rw [if_neg (by omega), if_neg hkt]

/-- Running n steps of effective tick +1 from an accumulated count k below
ticksPerEvent emits one single-step CW event each time the count reaches
ticksPerEvent: altogether (k + n) / ticksPerEvent events, with
(k + n) % ticksPerEvent ticks left accumulated. -/
lemma quadRun_pos (d : EncoderDef) (f : Bool × Bool → Bool × Bool)
    (hf : ∀ p : Bool × Bool,
      (if d.invertDirection then -quadDelta p.1 p.2 (f p).1 (f p).2
        else quadDelta p.1 p.2 (f p).1 (f p).2) = 1)
    (ht : 0 < d.ticksPerEvent.val) (n : Nat) :
    ∀ (ab : Bool × Bool) (k : Nat) (dir : Direction),
      k < d.ticksPerEvent.val →
      (quadRun d ⟨ab.1, ab.2, (k : Int), dir⟩ (seqOf f ab n)).2
          = List.replicate ((k + n) / d.ticksPerEvent.val)
              (InputEvent.encoderTurned d.id Direction.CW 1)
        ∧ (quadRun d ⟨ab.1, ab.2, (k : Int), dir⟩
              (seqOf f ab n)).1.accumulatedTicks
          = ((k + n) % d.ticksPerEvent.val : Nat) := by
  induction n with
  | zero =>
    intro ab k dir hk
    refine ⟨?_, ?_⟩
    · simp [quadRun, seqOf, Nat.div_eq_of_lt hk]
    · simp [quadRun, seqOf, Nat.mod_eq_of_lt hk]
  | succ n ih =>
    intro ab k dir hk
    have hstep := quadSample_pos d ab.1 ab.2 (f ab).1 (f ab).2 (hf ab)
      k dir hk
    by_cases hkt : k + 1 = d.ticksPerEvent.val
    · rw [if_pos hkt] at hstep
      obtain ⟨he, ha⟩ := ih (f ab) 0 Direction.CW ht
      rw [Nat.cast_zero] at he ha
      have harith : k + (n + 1) = n + d.ticksPerEvent.val := by omega
      constructor
      · simp only [seqOf, quadRun, hstep]
        rw [harith, Nat.add_div_right n ht, List.replicate_succ]
        simp [he]
      · simp only [seqOf, quadRun, hstep]
        rw [ha, harith, Nat.add_mod_right]
        simp
    · rw [if_neg hkt] at hstep
      have hk1 : k + 1 < d.ticksPerEvent.val := by omega
      obtain ⟨he, ha⟩ := ih (f ab) (k + 1) Direction.CW hk1
      have hcast : ((k + 1 : Nat) : Int) = ((k : Int) + 1) := by
        push_cast; ring
      have harith : k + 1 + n = k + (n + 1) := by omega
      rw [hcast, harith] at he ha
      constructor
      · simp only [seqOf, quadRun, hstep]
        simp [he]
      · simp only [seqOf, quadRun, hstep]
        simp [ha]

/-- Running n steps of effective tick -1 from an accumulated count -k with
k below ticksPerEvent emits one minus-one-step CCW event each time the
magnitude reaches ticksPerEvent: altogether (k + n) / ticksPerEvent
events, with magnitude (k + n) % ticksPerEvent left accumulated. -/
lemma quadRun_neg (d : EncoderDef) (f : Bool × Bool → Bool × Bool)
    (hf : ∀ p : Bool × Bool,
      (if d.invertDirection then -quadDelta p.1 p.2 (f p).1 (f p).2
        else quadDelta p.1 p.2 (f p).1 (f p).2) = -1)
    (ht : 0 < d.ticksPerEvent.val) (n : Nat) :
    ∀ (ab : Bool × Bool) (k : Nat) (dir : Direction),
      k < d.ticksPerEvent.val →
      (quadRun d ⟨ab.1, ab.2, -(k : Int), dir⟩ (seqOf f ab n)).2
          = List.replicate ((k + n) / d.ticksPerEvent.val)
              (InputEvent.encoderTurned d.id Direction.CCW (-1))
        ∧ (quadRun d ⟨ab.1, ab.2, -(k : Int), dir⟩
              (seqOf f ab n)).1.accumulatedTicks
          = -(((k + n) % d.ticksPerEvent.val : Nat) : Int) := by
  induction n with
  | zero =>
    intro ab k dir hk
    refine ⟨?_, ?_⟩
    · simp [quadRun, seqOf, Nat.div_eq_of_lt hk]
    · simp [quadRun, seqOf, Nat.mod_eq_of_lt hk]
  | succ n ih =>
    intro ab k dir hk
    have hstep := quadSample_neg d ab.1 ab.2 (f ab).1 (f ab).2 (hf ab)
      k dir hk
    by_cases hkt : k + 1 = d.ticksPerEvent.val
    · rw [if_pos hkt] at hstep
      obtain ⟨he, ha⟩ := ih (f ab) 0 Direction.CCW ht
      rw [Nat.cast_zero, neg_zero] at he ha
      have harith : k + (n + 1) = n + d.ticksPerEvent.val := by omega
      constructor
      · simp only [seqOf, quadRun, hstep]
        rw [harith, Nat.add_div_right n ht, List.replicate_succ]
        simp [he]
      · simp only [seqOf, quadRun, hstep]
        rw [ha, harith, Nat.add_mod_right]
        simp
    · rw [if_neg hkt] at hstep
      have hk1 : k + 1 < d.ticksPerEvent.val := by omega
      obtain ⟨he, ha⟩ := ih (f ab) (k + 1) Direction.CCW hk1
      have harith : k + 1 + n = k + (n + 1) := by omega
      rw [harith] at he ha
      constructor
      · simp only [seqOf, quadRun, hstep, Option.toList, List.nil_append]
        exact he
      · simp only [seqOf, quadRun, hstep]
        exact ha

/-- Claim C7: feeding the Quadrature Decoder N valid single-step Gray-code
transitions in one direction, clockwise or counter-clockwise, from a fresh
state of any encoder, emits exactly N / ticksPerEvent EncoderTurned
events, each of a single step in the direction selected by the rotation
and invertDirection, and carries the remainder N % ticksPerEvent over as
the magnitude of the accumulated ticks for subsequent calls; and an
invalid double-bit transition never changes accumulatedTicks and emits
nothing, whatever the state and configuration. -/
theorem quad_cw_steps_and_invalid (d : EncoderDef)
    (ht : 0 < d.ticksPerEvent.val) (ab : Bool × Bool) (dir : Direction)
    (n : Nat) :
    ((quadRun d ⟨ab.1, ab.2, 0, dir⟩ (cwSeq ab n)).2
        = List.replicate (n / d.ticksPerEvent.val)
            (if d.invertDirection then
              InputEvent.encoderTurned d.id Direction.CCW (-1)
            else InputEvent.encoderTurned d.id Direction.CW 1)
      ∧ ((quadRun d ⟨ab.1, ab.2, 0, dir⟩
            (cwSeq ab n)).1.accumulatedTicks).natAbs
          = n % d.ticksPerEvent.val)
    ∧ ((quadRun d ⟨ab.1, ab.2, 0, dir⟩ (ccwSeq ab n)).2
        = List.replicate (n / d.ticksPerEvent.val)
            (if d.invertDirection then
              InputEvent.encoderTurned d.id Direction.CW 1
            else InputEvent.encoderTurned d.id Direction.CCW (-1))
      ∧ ((quadRun d ⟨ab.1, ab.2, 0, dir⟩
            (ccwSeq ab n)).1.accumulatedTicks).natAbs
          = n % d.ticksPerEvent.val)
    ∧ ∀ (st : EncoderState) (a b : Bool),
        st.lastA ≠ a → st.lastB ≠ b →
        (quadSample d st a b).1.accumulatedTicks = st.accumulatedTicks
          ∧ (quadSample d st a b).2 = none := by
  refine ⟨?_, ?_, ?_⟩
  · cases hd : d.invertDirection with
    | false =>
      have h := quadRun_pos d cwSucc
        (fun p => by simp [hd, quadDelta_cwSucc]) ht n ab 0 dir ht
      rw [Nat.cast_zero] at h
      obtain ⟨he, ha⟩ := h
      rw [Nat.zero_add] at he ha
      constructor
      · simpa [cwSeq, hd] using he
      · simp only [cwSeq]
        rw [ha, Int.natAbs_ofNat]
    | true =>
      have h := quadRun_neg d cwSucc
        (fun p => by simp [hd, quadDelta_cwSucc]) ht n ab 0 dir ht
      rw [Nat.cast_zero, neg_zero] at h
      obtain ⟨he, ha⟩ := h
      rw [Nat.zero_add] at he ha
      constructor
      · simpa [cwSeq, hd] using he
      · simp only [cwSeq]
        rw [ha, Int.natAbs_neg, Int.natAbs_ofNat]
  · cases hd : d.invertDirection with
    | false =>
      have h := quadRun_neg d ccwSucc
        (fun p => by simp [hd, quadDelta_ccwSucc]) ht n ab 0 dir ht
      rw [Nat.cast_zero, neg_zero] at h
      obtain ⟨he, ha⟩ := h
      rw [Nat.zero_add] at he ha
      constructor
      · simpa [ccwSeq, hd] using he
      · simp only [ccwSeq]
        rw [ha, Int.natAbs_neg, Int.natAbs_ofNat]
    | true =>
      have h := quadRun_pos d ccwSucc
        (fun p => by simp [hd, quadDelta_ccwSucc]) ht n ab 0 dir ht
      rw [Nat.cast_zero] at h
      obtain ⟨he, ha⟩ := h
      rw [Nat.zero_add] at he ha
      constructor
      · simpa [ccwSeq, hd] using he
      · simp only [ccwSeq]
        rw [ha, Int.natAbs_ofNat]
  · intro st a b hA hB
    obtain ⟨la, lb, acc, dir0⟩ := st
    dsimp only at hA hB
    have hdelta : quadDelta la lb a b = 0 := by
      cases la <;> cases lb <;> cases a <;> cases b <;>
        first
          | exact absurd rfl hA
          | exact absurd rfl hB
          | decide
    constructor
    · simp [quadSample, hdelta]
    · simp [quadSample, hdelta]

/-- Witness for C7 at concrete inputs: the encoder of the spec scenario
(id 100, pins 22 and 23, default ticksPerEvent 4) fed 4 clockwise steps
emits exactly one one-step CW event, fed 4 counter-clockwise steps emits
exactly one minus-one-step CCW event; an otherwise identical encoder with
invertDirection set (id 101) fed 4 clockwise steps emits exactly one
minus-one-step CCW event; and an invalid double-bit transition leaves 2
accumulated ticks untouched. -/
theorem quad_cw_steps_and_invalid_witness :
    (quadRun (EncoderDef.mk3 100 22 23)
        ⟨false, false, 0, Direction.NONE⟩ (cwSeq (false, false) 4)).2
      = [InputEvent.encoderTurned 100 Direction.CW 1]
    ∧ (quadRun (EncoderDef.mk3 100 22 23)
        ⟨false, false, 0, Direction.NONE⟩ (ccwSeq (false, false) 4)).2
      = [InputEvent.encoderTurned 100 Direction.CCW (-1)]
    ∧ (quadRun (EncoderDef.mk7 101 22 23 24 270 4 true)
        ⟨false, false, 0, Direction.NONE⟩ (cwSeq (false, false) 4)).2
      = [InputEvent.encoderTurned 101 Direction.CCW (-1)]
    ∧ (quadSample (EncoderDef.mk3 100 22 23)
          ⟨false, false, 2, Direction.NONE⟩ true true).1.accumulatedTicks
      = 2 := by
  refine ⟨?_, ?_, ?_, ?_⟩
  · have h := (quad_cw_steps_and_invalid (EncoderDef.mk3 100 22 23)
        (by decide) (false, false) Direction.NONE 4).1.1
    simpa [EncoderDef.mk3, EncoderDef.mk7, List.replicate] using h
  · have h := (quad_cw_steps_and_invalid (EncoderDef.mk3 100 22 23)
        (by decide) (false, false) Direction.NONE 4).2.1.1
    simpa [EncoderDef.mk3, EncoderDef.mk7, List.replicate] using h
  · have h := (quad_cw_steps_and_invalid
        (EncoderDef.mk7 101 22 23 24 270 4 true)
        (by decide) (false, false) Direction.NONE 4).1.1
    simpa [EncoderDef.mk7, List.replicate] using h
  · exact ((quad_cw_steps_and_invalid (EncoderDef.mk3 100 22 23)
        (by decide) (false, false) Direction.NONE 4).2.2
        ⟨false, false, 2, Direction.NONE⟩ true true
        (by decide) (by decide)).1

/-- Modelled from the spec: the Input Event Bus, an ordered bounded queue
with a QueueOverflow diagnostic counter. The front of the list is the
oldest event. -/
structure EventBus where
  capacity : Nat
  queue : List InputEvent
  overflowCount : Nat
  deriving Repr, DecidableEq

/-- Modelled from the spec: a fresh bus of the given capacity with an
empty queue and a zero overflow counter. -/
def EventBus.emptyBus (cap : Nat) : EventBus := ⟨cap, [], 0⟩

/-- Modelled from the spec: publish appends an event to the queue; if the
queue is full, the oldest event is dropped and the QueueOverflow counter
increments. It never blocks and never fails the caller: it is a total
function on every bus and event. -/
def publish (bus : EventBus) (e : InputEvent) : EventBus :=
  if bus.queue.length < bus.capacity then
    ⟨bus.capacity, bus.queue ++ [e], bus.overflowCount⟩
  else
    ⟨bus.capacity, bus.queue.tail ++ [e], bus.overflowCount + 1⟩

/-- Publishing a list of events in order. -/
def publishAll (bus : EventBus) (es : List InputEvent) : EventBus :=
  es.foldl publish bus

/-- Modelled from the spec: drain pops all queued events in FIFO order,
oldest first, leaving the queue empty. -/
def drain (bus : EventBus) : List InputEvent × EventBus :=
  (bus.queue, ⟨bus.capacity, [], bus.overflowCount⟩)

/-- While the queue stays within capacity, publishing only appends, in
order, and the overflow counter is untouched. -/
lemma publishAll_within_capacity (es : List InputEvent) :
    ∀ bus : EventBus, bus.queue.length + es.length ≤ bus.capacity →
      publishAll bus es = ⟨bus.capacity, bus.queue ++ es,
        bus.overflowCount⟩ := by
  induction es with
  | nil => intro bus h; simp [publishAll]
  | cons e es ih =>
    intro bus h
    have hlt : bus.queue.length < bus.capacity := by
      simp only [List.length_cons] at h; omega
    have hpub : publish bus e =
        ⟨bus.capacity, bus.queue ++ [e], bus.overflowCount⟩ := by
      unfold publish
      rw [if_pos hlt]
    have hrec := ih ⟨bus.capacity, bus.queue ++ [e], bus.overflowCount⟩
      (by simp at h ⊢; omega)
    calc publishAll bus (e :: es)
        = publishAll (publish bus e) es := by
          simp [publishAll, List.foldl_cons]
      _ = publishAll ⟨bus.capacity, bus.queue ++ [e], bus.overflowCount⟩
            es := by rw [hpub]
      _ = ⟨bus.capacity, (bus.queue ++ [e]) ++ es, bus.overflowCount⟩ :=
          hrec
      _ = ⟨bus.capacity, bus.queue ++ e :: es, bus.overflowCount⟩ := by
          simp

/-- Claim C8: publish never fails the caller, being a total function, and
publishing capacity + 1 events into a bus of positive capacity leaves
exactly capacity events retrievable through drain, in FIFO publish order
with the oldest event dropped, and the QueueOverflow counter equal to
one. -/
theorem bus_overflow_drops_oldest (cap : Nat) (es : List InputEvent)
    (hcap : 0 < cap) (hlen : es.length = cap + 1) :
    (drain (publishAll (EventBus.emptyBus cap) es)).1 = es.tail
    ∧ (drain (publishAll (EventBus.emptyBus cap) es)).1.length = cap
    ∧ (publishAll (EventBus.emptyBus cap) es).overflowCount = 1 := by
  have hne : es ≠ [] := by
    intro h
    rw [h] at hlen
    simp at hlen
  have hsplit : es.dropLast ++ [es.getLast hne] = es :=
    List.dropLast_append_getLast hne
  have hdlen : es.dropLast.length = cap := by
    rw [List.length_dropLast, hlen]
    omega
  have hdrop : es.dropLast ≠ [] := by
    intro h
    rw [h] at hdlen
    simp at hdlen
    omega
  have hfill : publishAll (EventBus.emptyBus cap) es.dropLast
      = ⟨cap, es.dropLast, 0⟩ := by
    have h := publishAll_within_capacity es.dropLast (EventBus.emptyBus cap)
      (by simp [EventBus.emptyBus, hdlen])
    simpa [EventBus.emptyBus] using h
  have hstep : publishAll (EventBus.emptyBus cap) es
      = ⟨cap, es.dropLast.tail ++ [es.getLast hne], 1⟩ := by
    conv_lhs => rw [← hsplit]
    have hfold : publishAll (EventBus.emptyBus cap)
        (es.dropLast ++ [es.getLast hne])
        = publish (publishAll (EventBus.emptyBus cap) es.dropLast)
            (es.getLast hne) := by
      simp [publishAll, List.foldl_append]
    rw [hfold, hfill]
    unfold publish
    rw [if_neg (by simp [hdlen])]
  have htail : es.dropLast.tail ++ [es.getLast hne] = es.tail := by
    conv_rhs => rw [← hsplit]
    rw [List.tail_append_singleton_of_ne_nil hdrop]
  refine ⟨?_, ?_, ?_⟩
  · rw [hstep]
    simpa [drain] using htail
  · rw [hstep]
    show (es.dropLast.tail ++ [es.getLast hne]).length = cap
    rw [htail, List.length_tail, hlen]
    omega
  · rw [hstep]

/-- Witness for C8 at capacity 2: publishing three concrete events leaves
the last two retrievable in order and the overflow counter at one. -/
theorem bus_overflow_drops_oldest_witness :
    (drain (publishAll (EventBus.emptyBus 2)
        [InputEvent.buttonPressed 1, InputEvent.buttonReleased 1,
          InputEvent.buttonPressed 2])).1
      = [InputEvent.buttonReleased 1, InputEvent.buttonPressed 2]
    ∧ (publishAll (EventBus.emptyBus 2)
        [InputEvent.buttonPressed 1, InputEvent.buttonReleased 1,
          InputEvent.buttonPressed 2]).overflowCount = 1 := by
  have h := bus_overflow_drops_oldest 2
    [InputEvent.buttonPressed 1, InputEvent.buttonReleased 1,
      InputEvent.buttonPressed 2] (by decide) (by decide)
  exact ⟨h.1, h.2.2⟩
